import Mathlib

/-
  Verification development for the EasyLeaf LaTeX log parser
  (src/extension/content/controllers/LogParser.js).

  The parser is shallowly embedded: log text is a `List Char`, each of the
  five regex/extract rules becomes an executable anchored matcher, and the
  `parse` / `parseAll` entry points mirror the JavaScript control flow
  (CRLF normalisation, invisible-character stripping, priority scan with
  per-rule `lastIndex` reset, message validation, dedup by composite key,
  and the final stable sort).

  JavaScript regex semantics are reproduced faithfully:
  - a `g`-flagged `exec` finds the leftmost match starting at or after
    `lastIndex` (and with the `m` flag, `^` requires position 0 or a
    position right after a LineTerminator: one of \n \r U+2028 U+2029);
  - greedy pieces (`\s+`, `[^\n]+`) are tried longest first, lazy pieces
    (`{0,500}?`, `.*?`, `[\s\S]*?`) shortest first, and the backtracking
    search is the lexicographic search over these candidate lengths in
    regex order.  Where the search provably collapses to a deterministic
    split (rules 2, 4 and 5), the collapse argument is documented at the
    definition; rules 1 and 3 keep the explicit backtracking search.
  - `\s` (and `String.trim`) use the full ECMAScript whitespace set, `.`
    excludes the four LineTerminators, `[^\n]` excludes only \n.
  Numbers (`parseInt(digits, 10)`) are modelled as exact naturals; LaTeX
  line numbers are far below 2^53 so the float idealisation is harmless.
-/

namespace EasyLeaf

/-- ECMAScript `\s` (also the character set removed by `String.trim`):
tab, LF, VT, FF, CR, space, NBSP, U+1680, U+2000..U+200A, LS, PS,
U+202F, U+205F, U+3000, BOM. -/
def isWS (c : Char) : Bool :=
  c == '\t' || c == '\n' || c.toNat == 0x0B || c.toNat == 0x0C || c == '\r' ||
  c == ' ' || c.toNat == 0xA0 || c.toNat == 0x1680 ||
  (0x2000 <= c.toNat && c.toNat <= 0x200A) ||
  c.toNat == 0x2028 || c.toNat == 0x2029 || c.toNat == 0x202F ||
  c.toNat == 0x205F || c.toNat == 0x3000 || c.toNat == 0xFEFF

/-- ECMAScript LineTerminator set (what multiline `^` looks behind for,
what `$` looks ahead for, and what `.` refuses to match). -/
def isLineTerm (c : Char) : Bool :=
  c == '\n' || c == '\r' || c.toNat == 0x2028 || c.toNat == 0x2029

/-- The character class of `.` in a regex without the `s` flag. -/
def dotClass (c : Char) : Bool := !(isLineTerm c)

/-- The character class `[^\n]`. -/
def notNl (c : Char) : Bool := c != '\n'

/-- The character class `[^:]`. -/
def notColon (c : Char) : Bool := c != ':'

/-- Length of the maximal prefix of `l` whose characters satisfy `p`
(the span a greedy `p*` consumes before the first failing character). -/
def run (p : Char → Bool) (l : List Char) : Nat := (l.takeWhile p).length

/-- JavaScript `String.prototype.trim`: strip `isWS` characters from both
ends. -/
def trimList (l : List Char) : List Char :=
  ((l.dropWhile isWS).reverse.dropWhile isWS).reverse

/-- `parseInt(digits, 10)` on a non-empty all-digit numeral. -/
def digitsToNat (l : List Char) : Nat :=
  l.foldl (fun n c => n * 10 + (c.toNat - 48)) 0

/-- `text.replace(/\r\n/g, '\n')`: global non-overlapping left-to-right
replacement of CRLF pairs. -/
def normCRLF : List Char → List Char
  | '\r' :: '\n' :: rest => '\n' :: normCRLF rest
  | c :: rest => c :: normCRLF rest
  | [] => []

/-- The class U+200B..U+200D, U+2028, U+2029, U+202A..U+202E, U+FEFF removed
by `parseAll`'s second `replace`. -/
def isInvisible (c : Char) : Bool :=
  (0x200B <= c.toNat && c.toNat <= 0x200D) || c.toNat == 0x2028 || c.toNat == 0x2029 ||
  (0x202A <= c.toNat && c.toNat <= 0x202E) || c.toNat == 0xFEFF

/-- `text.replace(/[invisible]/g, '')` deletes every such character. -/
def stripInvisible (l : List Char) : List Char :=
  l.filter (fun c => !(isInvisible c))

/-- The error object built by the `extract` callbacks.  `line = none`
models JavaScript `null`; `file = none` models the property being absent
(rules 1, 3, 4, 5 do not set it). -/
structure ErrorRecord where
  message : String
  line : Option Nat
  file : Option String
  fullText : String
  type : String
deriving DecidableEq, Repr

/-- Candidate lengths for a greedy `X+` piece whose maximal span is `n`:
tried longest first, down to 1. -/
def descRange (n : Nat) : List Nat := (List.range n).reverse.map (· + 1)

/-- An anchored matcher: given the suffix of the text at the attempt
position, return the match length and the extracted record (the rule's
`extract` applied to the match object), or `none`. -/
abbrev Matcher := List Char → Option (Nat × ErrorRecord)

/-- Rule 1, `/^!\s+([^\n]+)(?:[\s\S]{0,500}?)l\.(\d+)/gm` with its
extract.  The backtracking search is explicit: `\s+` candidates `a`
longest first, `[^\n]+` candidates `b` longest first, the lazy bounded
gap `g` shortest first; then the literal `l.` and a greedy non-empty
digit run (nothing follows it, so its maximal run is final). -/
def matchPat1 (s : List Char) : Option (Nat × ErrorRecord) :=
  match s with
  | [] => none
  | c :: rest =>
    if c = '!' then
      (descRange (run isWS rest)).findSome? (fun a =>
        let afterWs := rest.drop a
        (descRange (run notNl afterWs)).findSome? (fun b =>
          let afterMsg := afterWs.drop b
          (List.range (min 500 afterMsg.length + 1)).findSome? (fun g =>
            let tl := afterMsg.drop g
            if tl.take 2 = ['l', '.'] then
              let ds := tl.drop 2
              let d := run Char.isDigit ds
              if d = 0 then none
              else
                some (1 + a + b + g + 2 + d,
                  { message := String.mk (trimList (afterWs.take b)),
                    line := some (digitsToNat (ds.take d)),
                    file := none,
                    fullText := String.mk (s.take (1 + a + b + g + 2 + d)),
                    type := "error" })
            else none)))
    else none

/-- Rule 2, `/^(\.\/?[^:]+):(\d+):\s+(.*)$/gm` with its extract.  Here the
backtracking search collapses to one deterministic split:
- `\.\/?[^:]+` followed by `:` always captures `.` plus the maximal
  non-colon run (whether a leading `/` is taken by `\/?` or by `[^:]+`
  gives the same capture text and the same end position, and any shorter
  `[^:]+` split ends on a non-colon character, failing the literal `:`);
- `\d+` followed by `:` forces the maximal digit run (a shorter split
  leaves a digit where `:` is required);
- `\s+` then `(.*)$`: after a maximal whitespace run, `.*` takes the
  maximal non-LineTerminator run, after which `$` (end of input or before
  a LineTerminator) always holds, so the first greedy choice succeeds. -/
def matchPat2 (s : List Char) : Option (Nat × ErrorRecord) :=
  match s with
  | [] => none
  | c :: rest =>
    if c = '.' then
      let m := run notColon rest
      let r2 := rest.drop (m + 1)
      let d := run Char.isDigit r2
      let r3 := r2.drop (d + 1)
      let w := run isWS r3
      let r4 := r3.drop w
      let msgLen := run dotClass r4
      if 1 ≤ m ∧ (rest.drop m).take 1 = [':'] ∧ 1 ≤ d ∧
          (r2.drop d).take 1 = [':'] ∧ 1 ≤ w then
        some (1 + m + 1 + d + 1 + w + msgLen,
          { message := String.mk (trimList (r4.take msgLen)),
            line := some (digitsToNat (r2.take d)),
            file := some (String.mk (trimList ('.' :: rest.take m))),
            fullText := String.mk (s.take (1 + m + 1 + d + 1 + w + msgLen)),
            type := "error" })
      else none
    else none

/-- Rule 3, `/^LaTeX Error:\s+(.*?)\s+on input line\s+(\d+)\.?/gm` with
its extract.  The first `\s+` (longest first), the lazy `(.*?)` (shortest
first) and the second `\s+` (longest first) are searched explicitly; the
`\s+` before the digits collapses to its maximal run (a shorter split
leaves a whitespace character where a digit is required), and the final
`\.?` greedily takes a dot when present (nothing follows it). -/
def matchPat3 (s : List Char) : Option (Nat × ErrorRecord) :=
  if s.take 12 = "LaTeX Error:".data then
    let rest := s.drop 12
    (descRange (run isWS rest)).findSome? (fun w1 =>
      let r1 := rest.drop w1
      (List.range (run dotClass r1 + 1)).findSome? (fun g =>
        let r2 := r1.drop g
        (descRange (run isWS r2)).findSome? (fun w2 =>
          let r3 := r2.drop w2
          if r3.take 13 = "on input line".data then
            let r4 := r3.drop 13
            let w3 := run isWS r4
            let r5 := r4.drop w3
            let d := run Char.isDigit r5
            if 1 ≤ w3 ∧ 1 ≤ d then
              let dot := if (r5.drop d).take 1 = ['.'] then 1 else 0
              some (12 + w1 + g + w2 + 13 + w3 + d + dot,
                { message := String.mk (trimList (r1.take g)),
                  line := some (digitsToNat (r5.take d)),
                  file := none,
                  fullText := String.mk (s.take (12 + w1 + g + w2 + 13 + w3 + d + dot)),
                  type := "error" })
            else none
          else none)))
  else none

/-- Rule 4, `/^Runaway argument\?[\s\S]*?!.*$/gm` with its extract.  The
lazy `[\s\S]*?` stops at the first `!` after the literal (larger gaps are
never tried because `.*$` always succeeds: `.*` takes the maximal
non-LineTerminator run, after which `$` holds). -/
def matchPat4 (s : List Char) : Option (Nat × ErrorRecord) :=
  if s.take 17 = "Runaway argument?".data then
    let rest := s.drop 17
    match rest.findIdx? (· == '!') with
    | some k =>
      let after := rest.drop (k + 1)
      let msgLen := run dotClass after
      some (17 + k + 1 + msgLen,
        { message := "Runaway argument (likely an unclosed curly brace \x27\x7d\x27)",
          line := none,
          file := none,
          fullText := String.mk (s.take (17 + k + 1 + msgLen)),
          type := "error" })
    | none => none
  else none

/-- Rule 5, `/^!\s+Emergency stop\./gm` with its extract.  `\s+` collapses
to its maximal run: a shorter split leaves a whitespace character where
the literal `E` is required. -/
def matchPat5 (s : List Char) : Option (Nat × ErrorRecord) :=
  match s with
  | [] => none
  | c :: rest =>
    if c = '!' then
      let w := run isWS rest
      if 1 ≤ w ∧ (rest.drop w).take 15 = "Emergency stop.".data then
        some (1 + w + 15,
          { message := "Emergency stop (compilation aborted fatally)",
            line := none,
            file := none,
            fullText := String.mk (s.take (1 + w + 15)),
            type := "critical" })
      else none
    else none

/-- `this.patterns`: the constructor's rule array, in priority order. -/
def patterns : List Matcher := [matchPat1, matchPat2, matchPat3, matchPat4, matchPat5]

/-- Whether position `p` satisfies the multiline `^` assertion: start of
input, or just after a LineTerminator. -/
def lineStartAt (text : List Char) (p : Nat) : Bool :=
  p == 0 || isLineTerm (text.getD (p - 1) 'x')

/-- `regex.exec(text)` with `lastIndex = start` for a `g`/`m` regex whose
pattern is `^`-anchored: the leftmost match at a position `p ≥ start`
satisfying the `^` assertion.  Returns (match index, match length,
extracted record). -/
def execFrom (m : Matcher) (text : List Char) (start : Nat) :
    Option (Nat × Nat × ErrorRecord) :=
  (List.range (text.length + 1)).findSome? (fun p =>
    if start ≤ p ∧ lineStartAt text p then
      match m (text.drop p) with
      | some (len, r) => some (p, len, r)
      | none => none
    else none)

/-- The `for (const pattern of this.patterns)` loop body of `parse`: reset
the cursor, take the rule's first match, return its record if the message
is non-empty (JS truthiness of a string), otherwise fall through to the
next rule. -/
def parseGo : List Matcher → List Char → Option ErrorRecord
  | [], _ => none
  | m :: ms, text =>
    match execFrom m text 0 with
    | some (_, _, r) => if r.message ≠ "" then some r else parseGo ms text
    | none => parseGo ms text

/-- `LogParser.parse(logText)`.  `none` models a `null` argument; the
`if (!logText)` guard also rejects the empty string. -/
def parse (logText : Option String) : Option ErrorRecord :=
  match logText with
  | none => none
  | some s =>
    if s.data = [] then none
    else parseGo patterns (normCRLF s.data)

/-- The composite dedup key of `parseAll`: JavaScript tests `error.line ?`
(truthy), so a `null` line *or line 0* selects the `null:<full message>`
form; otherwise the key is `<line>:<first 50 chars of message>`.  The two
string forms never collide (the line part is all digits and colon-free),
so the key is modelled as a pair. -/
def dedupKey (r : ErrorRecord) : Option Nat × String :=
  match r.line with
  | some n => if n = 0 then (none, r.message) else (some n, r.message.take 50)
  | none => (none, r.message)

/-- One iteration body of `parseAll`'s `while` loop after a match: keep
the record when its message is non-empty and its key unseen.  The
accumulator is (errors so far, seen keys so far). -/
def pushRecord (acc : List ErrorRecord × List (Option Nat × String))
    (r : ErrorRecord) : List ErrorRecord × List (Option Nat × String) :=
  if r.message ≠ "" then
    if dedupKey r ∈ acc.2 then acc else (acc.1 ++ [r], acc.2 ++ [dedupKey r])
  else acc

/-- The `while ((match = pattern.regex.exec(cleanText)) !== null)` loop of
`parseAll` for one rule, scanning forward from the end of the previous
match.  `fuel` bounds the iteration count; every rule consumes at least
one character per match, so `text.length + 1` fuel is never exhausted. -/
def collectPattern (m : Matcher) (text : List Char) :
    Nat → Nat → List ErrorRecord × List (Option Nat × String) →
    List ErrorRecord × List (Option Nat × String)
  | 0, _, acc => acc
  | fuel + 1, start, acc =>
    match execFrom m text start with
    | some (p, len, r) => collectPattern m text fuel (p + len) (pushRecord acc r)
    | none => acc

/-- The full collection phase of `parseAll`: the rule loop, sharing one
error list and one seen-key set across rules. -/
def collectAll (text : List Char) :
    List ErrorRecord × List (Option Nat × String) :=
  patterns.foldl (fun acc m => collectPattern m text (text.length + 1) 0 acc)
    ([], [])

/-- `parseAll`'s sort comparator:
`(a, b) => a.line === null && b.line === null ? 0 : a.line === null ? 1 :
b.line === null ? -1 : a.line - b.line`. -/
def cmp (a b : ErrorRecord) : Int :=
  match a.line, b.line with
  | none, none => 0
  | none, some _ => 1
  | some _, none => -1
  | some x, some y => (x : Int) - (y : Int)

/-- Stable insertion w.r.t. the comparator: the new element goes before
the first existing element it does not compare after. -/
def insertSorted (r : ErrorRecord) : List ErrorRecord → List ErrorRecord
  | [] => [r]
  | x :: xs => if cmp r x ≤ 0 then r :: x :: xs else x :: insertSorted r xs

/-- `errors.sort(comparator)`.  `Array.prototype.sort` is stable
(ES2019+) and the comparator is a total preorder, so the result is the
stable insertion sort by that comparator. -/
def sortRecords (l : List ErrorRecord) : List ErrorRecord :=
  l.foldr insertSorted []

/-- `parseAll`'s record list before the final sort, in encounter order. -/
def encounterList (logText : Option String) : List ErrorRecord :=
  match logText with
  | none => []
  | some s =>
    if s.data = [] then []
    else (collectAll (stripInvisible (normCRLF s.data))).1

/-- `LogParser.parseAll(logText)`. -/
def parseAll (logText : Option String) : List ErrorRecord :=
  match logText with
  | none => []
  | some s =>
    if s.data = [] then []
    else sortRecords (collectAll (stripInvisible (normCRLF s.data))).1

/-- What one iteration of `parse`'s rule loop yields for a rule: its first
match's record when that record's message is non-empty, `none` otherwise. -/
def ruleResult (m : Matcher) (text : List Char) : Option ErrorRecord :=
  match execFrom m text 0 with
  | some (_, _, r) => if r.message ≠ "" then some r else none
  | none => none

/-- The stream of valid (non-empty-message) records one rule discovers
over the whole text, before any deduplication. -/
def rawPattern (m : Matcher) (text : List Char) : Nat → Nat → List ErrorRecord
  | 0, _ => []
  | fuel + 1, start =>
    match execFrom m text start with
    | some (p, len, r) =>
      (if r.message ≠ "" then [r] else []) ++ rawPattern m text fuel (p + len)
    | none => []

/-- The full discovery stream of `parseAll`, rule-major: every record of
rule 1 (in increasing text position), then every record of rule 2, and so
on, before deduplication. -/
def rawList (logText : Option String) : List ErrorRecord :=
  match logText with
  | none => []
  | some s =>
    if s.data = [] then []
    else
      let text := stripInvisible (normCRLF s.data)
      (patterns.map (fun m => rawPattern m text (text.length + 1) 0)).flatten

/-- Modelled from the spec: one step of "first occurrence wins"
deduplication — keep the record only if its composite key is new. -/
def dedupStep (acc : List ErrorRecord) (r : ErrorRecord) : List ErrorRecord :=
  if dedupKey r ∈ acc.map dedupKey then acc else acc ++ [r]

/-- Modelled from the spec: "deduplicate by a composite key; first
occurrence wins, order of discovery is preserved". -/
def dedupFirst (l : List ErrorRecord) : List ErrorRecord := l.foldl dedupStep []

/-- Modelled from claim C4's words: a dedup key that uses the line form
whenever the line is known (non-null) — including line 0 — and the
full-message form only when the line is null.  (The code instead tests JS
truthiness, so line 0 falls into the full-message form.) -/
def claimDedupKey (r : ErrorRecord) : Option Nat × String :=
  match r.line with
  | some n => (some n, r.message.take 50)
  | none => (none, r.message)

/-- `regex.exec` with its `lastIndex` bookkeeping: on a match `lastIndex`
becomes the end of the match; on failure it is reset to 0. -/
def execStateful (m : Matcher) (text : List Char) (lastIndex : Nat) :
    Option (Nat × Nat × ErrorRecord) × Nat :=
  match execFrom m text lastIndex with
  | some (p, len, r) => (some (p, len, r), p + len)
  | none => (none, 0)

/-- The rule loop of `parse` with the per-rule `lastIndex` registers made
explicit (one `Nat` per rule, in rule order).  Each iteration performs
`pattern.regex.lastIndex = 0` — the incoming register is overwritten —
then calls `exec` once.  On an early return the remaining rules keep
their stale registers. -/
def parseGoSt : List Matcher → List Nat → List Char →
    Option ErrorRecord × List Nat
  | [], sts, _ => (none, sts)
  | m :: ms, sts, text =>
    match execStateful m text 0 with
    | (some (_, _, r), idx) =>
      if r.message ≠ "" then (some r, idx :: sts.tail)
      else
        let rest := parseGoSt ms sts.tail text
        (rest.1, idx :: rest.2)
    | (none, idx) =>
      let rest := parseGoSt ms sts.tail text
      (rest.1, idx :: rest.2)

/-- `parse` acting on an explicit vector of `lastIndex` registers.  The
`null`/empty guard returns before touching any register. -/
def parseSt (logText : Option String) (sts : List Nat) :
    Option ErrorRecord × List Nat :=
  match logText with
  | none => (none, sts)
  | some s =>
    if s.data = [] then (none, sts)
    else parseGoSt patterns sts (normCRLF s.data)

/-- `parseAll`'s `while` loop for one rule with the `lastIndex` register
explicit: the register is read before and written after every `exec`. -/
def collectLoopSt (m : Matcher) (text : List Char) :
    Nat → Nat → List ErrorRecord × List (Option Nat × String) →
    (List ErrorRecord × List (Option Nat × String)) × Nat
  | 0, lastIndex, acc => (acc, lastIndex)
  | fuel + 1, lastIndex, acc =>
    match execStateful m text lastIndex with
    | (some (_, _, r), idx) => collectLoopSt m text fuel idx (pushRecord acc r)
    | (none, idx) => (acc, idx)

/-- The rule loop of `parseAll` with explicit registers: each rule's
register is reset to 0 before its `while` loop runs. -/
def parseAllGoSt : List Matcher → List Nat → List Char →
    List ErrorRecord × List (Option Nat × String) →
    (List ErrorRecord × List (Option Nat × String)) × List Nat
  | [], sts, _, acc => (acc, sts)
  | m :: ms, sts, text, acc =>
    let step := collectLoopSt m text (text.length + 1) 0 acc
    let rest := parseAllGoSt ms sts.tail text step.1
    (rest.1, step.2 :: rest.2)

/-- `parseAll` acting on an explicit vector of `lastIndex` registers. -/
def parseAllSt (logText : Option String) (sts : List Nat) :
    List ErrorRecord × List Nat :=
  match logText with
  | none => ([], sts)
  | some s =>
    if s.data = [] then ([], sts)
    else
      let go := parseAllGoSt patterns sts (stripInvisible (normCRLF s.data)) ([], [])
      (sortRecords go.1.1, go.2)

/-- Scenario log for claim C1: two independent bang errors at lines 10
and 20. -/
def logC1 : String := "! Error one\nl.10 x\n! Error two\nl.20 y"

/-- The record of the line-10 error in `logC1`. -/
def recC1a : ErrorRecord :=
  { message := "Error one", line := some 10, file := none,
    fullText := "! Error one\nl.10", type := "error" }

/-- The record of the line-20 error in `logC1`. -/
def recC1b : ErrorRecord :=
  { message := "Error two", line := some 20, file := none,
    fullText := "! Error two\nl.20", type := "error" }

/-- Scenario log for claim C2 (spec scenario 1). -/
def logC2 : String := "! Undefined control sequence.\nl.12 \\mistake"

/-- The record `parse` extracts from `logC2`. -/
def recC2 : ErrorRecord :=
  { message := "Undefined control sequence.", line := some 12, file := none,
    fullText := "! Undefined control sequence.\nl.12", type := "error" }

/-- Counterexample log for claim C2: the `l.7` marker sits two lines
after the bang line, so the captured message is only the first line. -/
def cexC2 : String := "! A\nB\nl.7"

/-- Scenario log for claim C5 (spec scenario 2). -/
def logC5 : String := "./main.tex:42: Undefined control sequence.\n<argument> \\@nil"

/-- The record `parse` extracts from `logC5`. -/
def recC5 : ErrorRecord :=
  { message := "Undefined control sequence.", line := some 42,
    file := some "./main.tex",
    fullText := "./main.tex:42: Undefined control sequence.", type := "error" }

/-- Counterexample log for claim C4: two `l.0` bang errors whose messages
share their first 50 characters but differ at character 51. -/
def cexC4 : String :=
  "! aaaaaaaaaaaaaaaaaaaaaaaaaaaaaaaaaaaaaaaaaaaaaaaaaab\nl.0\n" ++
  "! aaaaaaaaaaaaaaaaaaaaaaaaaaaaaaaaaaaaaaaaaaaaaaaaaac\nl.0"

/-- First record `parseAll` returns on `cexC4`. -/
def recC4a : ErrorRecord :=
  { message := "aaaaaaaaaaaaaaaaaaaaaaaaaaaaaaaaaaaaaaaaaaaaaaaaaab",
    line := some 0, file := none,
    fullText := "! aaaaaaaaaaaaaaaaaaaaaaaaaaaaaaaaaaaaaaaaaaaaaaaaaab\nl.0",
    type := "error" }

/-- Second record `parseAll` returns on `cexC4`. -/
def recC4b : ErrorRecord :=
  { message := "aaaaaaaaaaaaaaaaaaaaaaaaaaaaaaaaaaaaaaaaaaaaaaaaaac",
    line := some 0, file := none,
    fullText := "! aaaaaaaaaaaaaaaaaaaaaaaaaaaaaaaaaaaaaaaaaaaaaaaaaac\nl.0",
    type := "error" }

/-- Counterexample log for claim C5: the rule-2 message capture carries
a trailing space, which the extractor trims away. -/
def cexC5 : String := "./a.tex:7: hi \nx"

/-- Scenario log for claim C10, part 1: a rule-2 diagnostic on the first
line and a rule-1 bang error later, both at source line 5. -/
def logC10a : String := "./f.tex:5: other\n! boom\nl.5"

/-- The rule-1 record of `logC10a` (discovered first, despite occurring
later in the text). -/
def recC10a1 : ErrorRecord :=
  { message := "boom", line := some 5, file := none,
    fullText := "! boom\nl.5", type := "error" }

/-- The rule-2 record of `logC10a`. -/
def recC10a2 : ErrorRecord :=
  { message := "other", line := some 5, file := some "./f.tex",
    fullText := "./f.tex:5: other", type := "error" }

/-- Scenario log for claim C10, part 2: a rule-2 diagnostic and a rule-1
bang error carrying the same dedup key (same line, same message). -/
def logC10b : String :=
  "./a.tex:3: Undefined control sequence.\n! Undefined control sequence.\nl.3"

/-- The surviving (rule-1) record of `logC10b`: note `file = none`, even
though the rule-2 text carrying the file name occurs earlier in the log. -/
def recC10b : ErrorRecord :=
  { message := "Undefined control sequence.", line := some 3, file := none,
    fullText := "! Undefined control sequence.\nl.3", type := "error" }



/-- The decomposition that makes rule 1 fire right at a bang line-start:
a non-empty whitespace run of length `a`, a non-empty newline-free
capture of length `b`, a gap of `g <= 500` arbitrary characters, then
the literal `l.` followed by at least one digit. -/
def pat1Decomp (rest : List Char) (a b g : Nat) : Prop :=
  1 ≤ a ∧ (rest.take a).all isWS = true ∧
  1 ≤ b ∧ ((rest.drop a).take b).all notNl = true ∧
  g ≤ 500 ∧
  (((rest.drop a).drop b).drop g).take 2 = ['l', '.'] ∧
  (∃ ch chs, (((rest.drop a).drop b).drop g).drop 2 = ch :: chs ∧ ch.isDigit = true)

set_option maxRecDepth 100000
set_option maxHeartbeats 1000000

/-- Inversion for `findSome?`: a hit comes from some list element. -/
theorem findSome?_exists {α β : Type} {f : α → Option β} {l : List α} {b : β}
    (h : l.findSome? f = some b) : ∃ a, a ∈ l ∧ f a = some b := by
  induction l with
  | nil => simp [List.findSome?] at h
  | cons x xs ih =>
    rw [List.findSome?_cons] at h
    cases hx : f x with
    | some v => rw [hx] at h; exact ⟨x, List.mem_cons_self x xs, hx.trans h⟩
    | none =>
      rw [hx] at h
      obtain ⟨a, ha, hfa⟩ := ih h
      exact ⟨a, List.mem_cons_of_mem _ ha, hfa⟩

/-- `findSome?` succeeds when some element succeeds. -/
theorem findSome?_isSome {α β : Type} {f : α → Option β} {l : List α} {a : α}
    (ha : a ∈ l) (hf : (f a).isSome) : (l.findSome? f).isSome := by
  induction l with
  | nil => cases ha
  | cons x xs ih =>
    rw [List.findSome?_cons]
    cases hx : f x with
    | some v => simp
    | none =>
      rcases List.mem_cons.mp ha with rfl | ha2
      · rw [hx] at hf; simp at hf
      · exact ih ha2

/-- `findSome?` misses when every element misses. -/
theorem findSome?_none {α β : Type} {f : α → Option β} {l : List α}
    (h : ∀ a, f a = none) : l.findSome? f = none := by
  induction l with
  | nil => rfl
  | cons x xs ih => rw [List.findSome?_cons, h x]; exact ih

/-- If element `i` succeeds and all earlier elements miss, `findSome?`
returns element `i`'s hit. -/
theorem findSome?_eq_of_getD {α β : Type} {f : α → Option β} {d : α}
    (hd : f d = none) :
    ∀ (l : List α) (i : Nat) (b : β), f (l.getD i d) = some b →
      (∀ j, j < i → f (l.getD j d) = none) → l.findSome? f = some b := by
  intro l
  induction l with
  | nil =>
    intro i b hb _
    rw [List.getD_nil, hd] at hb
    cases hb
  | cons x xs ih =>
    intro i b hb hj
    rw [List.findSome?_cons]
    cases i with
    | zero =>
      rw [List.getD_cons_zero] at hb
      rw [hb]
    | succ i2 =>
      have h0 : f x = none := by
        have := hj 0 (Nat.succ_pos i2)
        rwa [List.getD_cons_zero] at this
      rw [h0]
      refine ih i2 b (by rwa [List.getD_cons_succ] at hb) (fun j hjlt => ?_)
      have := hj (j + 1) (by omega)
      rwa [List.getD_cons_succ] at this

/-- Membership in the greedy candidate list. -/
theorem mem_descRange {a n : Nat} : a ∈ descRange n ↔ 1 ≤ a ∧ a ≤ n := by
  simp only [descRange, List.mem_map, List.mem_reverse, List.mem_range]
  constructor
  · rintro ⟨x, hx, rfl⟩; omega
  · rintro ⟨h1, h2⟩; exact ⟨a - 1, by omega, by omega⟩

/-- A prefix not longer than the maximal `p`-run satisfies `p`
throughout. -/
theorem take_all_of_le_run {p : Char → Bool} :
    ∀ (l : List Char) (a : Nat), a ≤ run p l → (l.take a).all p = true := by
  intro l
  induction l with
  | nil => intro a _; simp
  | cons x xs ih =>
    intro a ha
    cases a with
    | zero => simp
    | succ a2 =>
      rw [run, List.takeWhile_cons] at ha
      by_cases hx : p x
      · rw [if_pos hx, List.length_cons] at ha
        rw [List.take_succ_cons, List.all_cons, hx, Bool.true_and]
        refine ih a2 ?_
        rw [run]
        omega
      · rw [if_neg hx] at ha
        simp only [List.length_nil] at ha
        omega

/-- Conversely, an all-`p` prefix is no longer than the maximal run. -/
theorem le_run_of_take_all {p : Char → Bool} :
    ∀ (l : List Char) (a : Nat), a ≤ l.length → (l.take a).all p = true →
      a ≤ run p l := by
  intro l
  induction l with
  | nil => intro a ha _; simpa [run] using ha
  | cons x xs ih =>
    intro a ha hall
    cases a with
    | zero => omega
    | succ a2 =>
      simp only [List.take_succ_cons, List.all_cons, Bool.and_eq_true] at hall
      rw [run, List.takeWhile_cons, if_pos hall.1, List.length_cons]
      have h2 := ih a2 (by simpa using ha) hall.2
      rw [run] at h2
      omega

/-- The maximal run never exceeds the list length. -/
theorem run_le_length (p : Char → Bool) (l : List Char) : run p l ≤ l.length := by
  induction l with
  | nil => simp [run]
  | cons x xs ih =>
    rw [run, List.takeWhile_cons]
    by_cases hx : p x
    · rw [if_pos hx, List.length_cons, List.length_cons]
      rw [run] at ih
      omega
    · rw [if_neg hx]
      simp

/-- The head surviving a `dropWhile` fails the predicate. -/
theorem dropWhile_head_not {p : Char → Bool} :
    ∀ (l : List Char) (c : Char) (cs : List Char),
      l.dropWhile p = c :: cs → p c = false := by
  intro l
  induction l with
  | nil => intro c cs h; simp [List.dropWhile] at h
  | cons x xs ih =>
    intro c cs h
    rw [List.dropWhile_cons] at h
    by_cases hx : p x
    · simp only [hx, if_true] at h
      exact ih c cs h
    · simp only [hx, if_false] at h
      cases h
      simpa using hx

/-- The right strip keeps a prefix of its input. -/
theorem trimRight_prefix (p : Char → Bool) (m : List Char) :
    (m.reverse.dropWhile p).reverse <+: m := by
  have hsuf : m.reverse.dropWhile p <:+ m.reverse := List.dropWhile_suffix p
  have := hsuf.reverse
  rwa [List.reverse_reverse] at this

/-- A non-empty trimmed string is not whitespace-only: its first
character survived the left strip. -/
theorem trimList_not_all_ws {l : List Char} (h : trimList l ≠ []) :
    (trimList l).all isWS = false := by
  unfold trimList at h ⊢
  rcases hcase : ((l.dropWhile isWS).reverse.dropWhile isWS).reverse with _ | ⟨c, cs⟩
  · exact absurd hcase h
  · have hpre : ((l.dropWhile isWS).reverse.dropWhile isWS).reverse <+: l.dropWhile isWS :=
      trimRight_prefix isWS (l.dropWhile isWS)
    rw [hcase] at hpre
    obtain ⟨t, ht⟩ := hpre
    have hc : isWS c = false := dropWhile_head_not l c (cs ++ t) ht.symm
    rw [List.all_cons, hc, Bool.false_and]


/-- A rule that never matches contributes nothing to `parse`. -/
theorem ruleResult_default (text : List Char) :
    ruleResult (fun _ => none) text = none := by
  unfold ruleResult execFrom
  rw [findSome?_none]
  intro p
  by_cases h : 0 ≤ p ∧ lineStartAt text p
  · rw [if_pos h]
  · rw [if_neg h]

/-- `parse`'s rule loop is the first-hit search over `ruleResult`. -/
theorem parseGo_eq_findSome? (ms : List Matcher) (text : List Char) :
    parseGo ms text = ms.findSome? (fun m => ruleResult m text) := by
  induction ms with
  | nil => rfl
  | cons m ms ih =>
    rw [List.findSome?_cons]
    show (match execFrom m text 0 with
      | some (_, _, r) => if r.message ≠ "" then some r else parseGo ms text
      | none => parseGo ms text) = _
    unfold ruleResult
    cases hx : execFrom m text 0 with
    | none => exact ih
    | some v =>
      obtain ⟨p, len, r⟩ := v
      by_cases h : r.message = ""
      · simp only [h, ne_eq, not_true_eq_false, if_false]
        exact ih
      · simp only [ne_eq, h, not_false_eq_true, if_true]

/-- A non-empty string has non-empty character data. -/
theorem data_ne_nil {t : String} (h : t ≠ "") : t.data ≠ [] := by
  intro hd
  apply h
  cases t with
  | mk l =>
    cases hd
    rfl

/-- Claim C6: for `null` or empty input, `parse` returns `null` and
`parseAll` returns the empty sequence, without invoking any rule (the
explicit `lastIndex` registers are left untouched) and without any
failure path. -/
theorem claim6_empty_input :
    parse none = none ∧ parse (some "") = none ∧
    parseAll none = [] ∧ parseAll (some "") = [] ∧
    (∀ sts : List Nat,
      parseSt none sts = (none, sts) ∧ parseSt (some "") sts = (none, sts) ∧
      parseAllSt none sts = ([], sts) ∧ parseAllSt (some "") sts = ([], sts)) :=
  ⟨rfl, rfl, rfl, rfl, fun _ => ⟨rfl, rfl, rfl, rfl⟩⟩

/-- Claim C1: `parse` evaluates the rules strictly in priority order and
returns the record of the first rule whose first match has a non-empty
message; on a log with two bang errors at lines 10 and 20, `parse`
returns only the line-10 record while `parseAll` returns both, ordered
line 10 then line 20. -/
theorem claim1_priority_first_match :
    (∀ (t : String) (i : Nat) (r : ErrorRecord),
        t ≠ "" →
        ruleResult (patterns.getD i (fun _ => none)) (normCRLF t.data) = some r →
        (∀ j, j < i →
          ruleResult (patterns.getD j (fun _ => none)) (normCRLF t.data) = none) →
        parse (some t) = some r) ∧
    parse (some logC1) = some recC1a ∧
    parseAll (some logC1) = [recC1a, recC1b] := by
  refine ⟨?_, by decide, by decide⟩
  intro t i r ht h1 h2
  show (if t.data = [] then none else parseGo patterns (normCRLF t.data)) = some r
  rw [if_neg (data_ne_nil ht), parseGo_eq_findSome?]
  exact findSome?_eq_of_getD (f := fun m => ruleResult m (normCRLF t.data))
    (d := fun _ => none) (ruleResult_default _) patterns i r h1 h2

/-- Witness for claim C1's theorem at a concrete input: rule 1 (index 0)
produces the line-10 record on `logC1`, and `parse` returns it. -/
theorem claim1_witness : parse (some logC1) = some recC1a :=
  claim1_priority_first_match.1 logC1 0 recC1a (by decide) (by decide)
    (fun j hj => absurd hj (Nat.not_lt_zero j))


/-- Inversion of rule 1: every successful match decomposes as `!`, a
non-empty whitespace run `a`, a non-empty single-line message capture
`b`, a gap `g` of at most 500 characters, the literal `l.`, and a
maximal non-empty digit capture; the record's fields come from that
decomposition (trimmed capture, parsed digits, matched span). -/
theorem matchPat1_sound {c : Char} {rest : List Char} {len : Nat}
    {r : ErrorRecord} (h : matchPat1 (c :: rest) = some (len, r)) :
    c = '!' ∧
    ∃ a b g,
      1 ≤ a ∧ a ≤ run isWS rest ∧
      1 ≤ b ∧ b ≤ run notNl (rest.drop a) ∧
      g ≤ 500 ∧
      ((((rest.drop a).drop b).drop g).take 2 = ['l', '.']) ∧
      1 ≤ run Char.isDigit ((((rest.drop a).drop b).drop g).drop 2) ∧
      len = 1 + a + b + g + 2 + run Char.isDigit ((((rest.drop a).drop b).drop g).drop 2) ∧
      r = { message := String.mk (trimList ((rest.drop a).take b)),
            line := some (digitsToNat ((((((rest.drop a).drop b).drop g).drop 2)).take
              (run Char.isDigit ((((rest.drop a).drop b).drop g).drop 2)))),
            file := none,
            fullText := String.mk ((c :: rest).take len),
            type := "error" } := by
  simp only [matchPat1] at h
  by_cases hc : c = '!'
  · subst hc
    rw [if_pos rfl] at h
    refine ⟨rfl, ?_⟩
    obtain ⟨a, haMem, ha⟩ := findSome?_exists h
    obtain ⟨b, hbMem, hb⟩ := findSome?_exists ha
    obtain ⟨g, hgMem, hg⟩ := findSome?_exists hb
    rw [mem_descRange] at haMem hbMem
    rw [List.mem_range] at hgMem
    by_cases hl : (((rest.drop a).drop b).drop g).take 2 = ['l', '.']
    · rw [if_pos hl] at hg
      by_cases hd : run Char.isDigit ((((rest.drop a).drop b).drop g).drop 2) = 0
      · rw [if_pos hd] at hg
        cases hg
      · rw [if_neg hd] at hg
        rw [Option.some.injEq, Prod.mk.injEq] at hg
        obtain ⟨hlen, hrec⟩ := hg
        subst hlen
        exact ⟨a, b, g, haMem.1, haMem.2, hbMem.1, hbMem.2, by omega, hl,
          by omega, rfl, hrec.symm⟩
    · rw [if_neg hl] at hg
      cases hg
  · rw [if_neg hc] at h
    cases h

/-- Inversion of rule 2: every successful match decomposes as `.`, a
non-empty maximal non-colon path run, `:`, a non-empty maximal digit
run, `:`, a non-empty maximal whitespace run, and a maximal
non-LineTerminator message capture; the record's fields come from that
decomposition. -/
theorem matchPat2_sound {c : Char} {rest : List Char} {len : Nat}
    {r : ErrorRecord} (h : matchPat2 (c :: rest) = some (len, r)) :
    c = '.' ∧
    ∃ m d w msgLen,
      m = run notColon rest ∧
      d = run Char.isDigit (rest.drop (m + 1)) ∧
      w = run isWS ((rest.drop (m + 1)).drop (d + 1)) ∧
      msgLen = run dotClass ((((rest.drop (m + 1)).drop (d + 1))).drop w) ∧
      1 ≤ m ∧ (rest.drop m).take 1 = [':'] ∧
      1 ≤ d ∧ ((rest.drop (m + 1)).drop d).take 1 = [':'] ∧
      1 ≤ w ∧
      len = 1 + m + 1 + d + 1 + w + msgLen ∧
      r = { message := String.mk (trimList (((((rest.drop (m + 1)).drop (d + 1))).drop w).take msgLen)),
            line := some (digitsToNat ((rest.drop (m + 1)).take d)),
            file := some (String.mk (trimList ('.' :: rest.take m))),
            fullText := String.mk ((c :: rest).take len),
            type := "error" } := by
  simp only [matchPat2] at h
  by_cases hc : c = '.'
  · subst hc
    rw [if_pos rfl] at h
    refine ⟨rfl, ?_⟩
    by_cases hcond : 1 ≤ run notColon rest ∧
        (rest.drop (run notColon rest)).take 1 = [':'] ∧
        1 ≤ run Char.isDigit (rest.drop (run notColon rest + 1)) ∧
        ((rest.drop (run notColon rest + 1)).drop
          (run Char.isDigit (rest.drop (run notColon rest + 1)))).take 1 = [':'] ∧
        1 ≤ run isWS ((rest.drop (run notColon rest + 1)).drop
          (run Char.isDigit (rest.drop (run notColon rest + 1)) + 1))
    · rw [if_pos hcond] at h
      rw [Option.some.injEq, Prod.mk.injEq] at h
      obtain ⟨hlen, hrec⟩ := h
      subst hlen
      obtain ⟨h1, h2, h3, h4, h5⟩ := hcond
      refine ⟨run notColon rest,
        run Char.isDigit (rest.drop (run notColon rest + 1)),
        run isWS ((rest.drop (run notColon rest + 1)).drop
          (run Char.isDigit (rest.drop (run notColon rest + 1)) + 1)),
        run dotClass (((rest.drop (run notColon rest + 1)).drop
          (run Char.isDigit (rest.drop (run notColon rest + 1)) + 1)).drop
          (run isWS ((rest.drop (run notColon rest + 1)).drop
            (run Char.isDigit (rest.drop (run notColon rest + 1)) + 1)))),
        rfl, rfl, rfl, rfl, h1, h2, h3, h4, h5, rfl, hrec.symm⟩
    · rw [if_neg hcond] at h
      cases h
  · rw [if_neg hc] at h
    cases h

/-- The message extracted by rule 3 is a trimmed capture. -/
theorem matchPat3_message {s : List Char} {len : Nat} {r : ErrorRecord}
    (h : matchPat3 s = some (len, r)) :
    ∃ cap, r.message = String.mk (trimList cap) := by
  simp only [matchPat3] at h
  by_cases h12 : s.take 12 = "LaTeX Error:".data
  · rw [if_pos h12] at h
    obtain ⟨w1, _, h1⟩ := findSome?_exists h
    obtain ⟨g, _, h2⟩ := findSome?_exists h1
    obtain ⟨w2, _, h3⟩ := findSome?_exists h2
    by_cases h13 : ((((s.drop 12).drop w1).drop g).drop w2).take 13 = "on input line".data
    · rw [if_pos h13] at h3
      by_cases hwd : 1 ≤ run isWS (((((s.drop 12).drop w1).drop g).drop w2).drop 13) ∧
          1 ≤ run Char.isDigit ((((((s.drop 12).drop w1).drop g).drop w2).drop 13).drop
            (run isWS (((((s.drop 12).drop w1).drop g).drop w2).drop 13)))
      · rw [if_pos hwd] at h3
        rw [Option.some.injEq, Prod.mk.injEq] at h3
        refine ⟨((s.drop 12).drop w1).take g, ?_⟩
        rw [← h3.2]
      · rw [if_neg hwd] at h3
        cases h3
    · rw [if_neg h13] at h3
      cases h3
  · rw [if_neg h12] at h
    cases h

/-- The message extracted by rule 4 is the fixed unclosed-brace hint. -/
theorem matchPat4_message {s : List Char} {len : Nat} {r : ErrorRecord}
    (h : matchPat4 s = some (len, r)) :
    r.message = "Runaway argument (likely an unclosed curly brace \x27\x7d\x27)" := by
  simp only [matchPat4] at h
  by_cases h17 : s.take 17 = "Runaway argument?".data
  · rw [if_pos h17] at h
    cases hidx : (s.drop 17).findIdx? (· == '!') with
    | none => rw [hidx] at h; cases h
    | some k =>
      rw [hidx] at h
      rw [Option.some.injEq, Prod.mk.injEq] at h
      rw [← h.2]
  · rw [if_neg h17] at h
    cases h

/-- The message extracted by rule 5 is the fixed emergency-stop text. -/
theorem matchPat5_message {c : Char} {rest : List Char} {len : Nat}
    {r : ErrorRecord} (h : matchPat5 (c :: rest) = some (len, r)) :
    r.message = "Emergency stop (compilation aborted fatally)" := by
  simp only [matchPat5] at h
  by_cases hc : c = '!'
  · rw [if_pos hc] at h
    by_cases hcond : 1 ≤ run isWS rest ∧
        (rest.drop (run isWS rest)).take 15 = "Emergency stop.".data
    · rw [if_pos hcond] at h
      rw [Option.some.injEq, Prod.mk.injEq] at h
      rw [← h.2]
    · rw [if_neg hcond] at h
      cases h
  · rw [if_neg hc] at h
    cases h

/-- Inversion of `exec`: a hit lies at or after the scan start, at a
line-start position, and is an anchored match of the rule there. -/
theorem execFrom_sound {m : Matcher} {text : List Char} {start p len : Nat}
    {r : ErrorRecord} (h : execFrom m text start = some (p, len, r)) :
    start ≤ p ∧ lineStartAt text p = true ∧ m (text.drop p) = some (len, r) := by
  unfold execFrom at h
  obtain ⟨q, hqmem, hq⟩ := findSome?_exists h
  split at hq
  case isTrue hcond =>
    cases hmq : m (text.drop q) with
    | none => rw [hmq] at hq; cases hq
    | some v =>
      obtain ⟨len2, r2⟩ := v
      rw [hmq] at hq
      simp only [Option.some.injEq, Prod.mk.injEq] at hq
      obtain ⟨rfl, rfl, rfl⟩ := hq
      exact ⟨hcond.1, by simpa using hcond.2, hmq⟩
  case isFalse hcond => cases hq

/-- The empty string is the string with no characters. -/
theorem stringMk_eq_empty {l : List Char} : String.mk l = "" ↔ l = [] := by
  constructor
  · intro h
    have : (String.mk l).data = ("" : String).data := by rw [h]
    simpa using this
  · intro h
    rw [h]

/-- Every record a rule in the priority list can produce carries either a
trimmed capture or one of the two fixed rule messages. -/
theorem patterns_message_shape {m : Matcher} (hm : m ∈ patterns)
    {s : List Char} {len : Nat} {r : ErrorRecord}
    (h : m s = some (len, r)) :
    (∃ cap, r.message = String.mk (trimList cap)) ∨
    r.message = "Runaway argument (likely an unclosed curly brace \x27\x7d\x27)" ∨
    r.message = "Emergency stop (compilation aborted fatally)" := by
  simp only [patterns, List.mem_cons, List.not_mem_nil, or_false] at hm
  rcases hm with rfl | rfl | rfl | rfl | rfl
  · cases s with
    | nil => simp only [matchPat1] at h; cases h
    | cons c rest =>
      obtain ⟨hc, a, b, g, h1, h2, h3, h4, h5, h6, h7, h8, hrec⟩ := matchPat1_sound h
      exact Or.inl ⟨(rest.drop a).take b, by rw [hrec]⟩
  · cases s with
    | nil => simp only [matchPat2] at h; cases h
    | cons c rest =>
      obtain ⟨hc, m, d, w, msgLen, e1, e2, e3, e4, h1, h2, h3, h4, h5, h6, hrec⟩ :=
        matchPat2_sound h
      exact Or.inl ⟨((((rest.drop (m + 1)).drop (d + 1))).drop w).take msgLen, by rw [hrec]⟩
  · exact Or.inl (matchPat3_message h)
  · exact Or.inr (Or.inl (matchPat4_message h))
  · cases s with
    | nil => simp only [matchPat5] at h; cases h
    | cons c rest => exact Or.inr (Or.inr (matchPat5_message h))

/-- Claim C7: `parse` never returns a record whose message is empty or
whitespace-only, and a rule whose match extracts an empty message is
treated as a non-match for that rule only — the remaining rules are
still attempted. -/
theorem claim7_nonempty_message :
    (∀ (o : Option String) (r : ErrorRecord), parse o = some r →
        r.message ≠ "" ∧ r.message.data.all isWS = false) ∧
    (∀ (m : Matcher) (ms : List Matcher) (text : List Char) (p len : Nat)
        (r : ErrorRecord),
        execFrom m text 0 = some (p, len, r) → r.message = "" →
        parseGo (m :: ms) text = parseGo ms text) := by
  constructor
  · intro o r h
    cases o with
    | none => cases h
    | some s =>
      rw [show parse (some s) =
        (if s.data = [] then none else parseGo patterns (normCRLF s.data)) from rfl] at h
      split at h
      case isTrue => cases h
      case isFalse =>
        rw [parseGo_eq_findSome?] at h
        obtain ⟨m, hm, hrr⟩ := findSome?_exists h
        unfold ruleResult at hrr
        cases hx : execFrom m (normCRLF s.data) 0 with
        | none => rw [hx] at hrr; cases hrr
        | some v =>
          obtain ⟨p, len, r2⟩ := v
          rw [hx] at hrr
          have hrr2 : (if r2.message ≠ "" then some r2 else none) = some r := hrr
          by_cases hne : r2.message = ""
          · rw [if_neg (fun hcon => hcon hne)] at hrr2
            cases hrr2
          · rw [if_pos hne] at hrr2
            rw [Option.some.injEq] at hrr2
            subst hrr2
            refine ⟨hne, ?_⟩
            have hmatch := (execFrom_sound hx).2.2
            rcases patterns_message_shape hm hmatch with ⟨cap, hcap⟩ | hfix | hfix
            · have hnil : trimList cap ≠ [] := by
                intro hnil
                apply hne
                rw [hcap, hnil]
              rw [hcap]
              exact trimList_not_all_ws hnil
            · rw [hfix]; decide
            · rw [hfix]; decide
  · intro m ms text p len r hexec hmsg
    show (match execFrom m text 0 with
      | some (_, _, r) => if r.message ≠ "" then some r else parseGo ms text
      | none => parseGo ms text) = parseGo ms text
    rw [hexec]
    simp [hmsg]

/-- Witness for claim C7's theorem: the record `parse` returns on the
scenario-1 log has a non-empty, non-whitespace message. -/
theorem claim7_witness :
    recC2.message ≠ "" ∧ recC2.message.data.all isWS = false :=
  claim7_nonempty_message.1 (some logC2) recC2 (by decide)

/-- A maximal run is positive exactly when the list starts with a
character satisfying the predicate. -/
theorem run_pos_iff {p : Char → Bool} {l : List Char} :
    1 ≤ run p l ↔ ∃ ch chs, l = ch :: chs ∧ p ch = true := by
  cases l with
  | nil => simp [run]
  | cons x xs =>
    constructor
    · intro h
      by_cases hx : p x
      · exact ⟨x, xs, rfl, hx⟩
      · rw [run, List.takeWhile_cons, if_neg hx] at h
        simp at h
    · rintro ⟨ch, chs, heq, hch⟩
      cases heq
      rw [run, List.takeWhile_cons, if_pos hch, List.length_cons]
      omega

/-- Claim C2 counterexample: on the log `"! A\nB\nl.7"` the marker sits
two lines after `!`; `parse` returns message `"A"` (the first line
only), not the trimmed text between `!` and the marker, which is
`"A\nB"`. -/
theorem claim2_counterexample :
    (parse (some cexC2)).map ErrorRecord.message = some "A" ∧
    String.mk (trimList (" A\nB\n".data)) = "A\nB" ∧
    ("A" : String) ≠ "A\nB" :=
  ⟨by decide, by decide, by decide⟩

/-- Claim C2 as amended: whenever rule 1 matches, the match decomposes
as `!`, whitespace, a capture confined to the bang line, a gap of at
most 500 characters, and an `l.<digits>` marker; the record's message is
the trimmed capture (the remainder of the bang line only, not all text
up to the marker), its line is the parsed digits, its kind `error`.
Conversely such a decomposition at a bang position makes the rule match,
and a marker only reachable with a gap beyond 500 characters yields no
match (contrapositive of the decomposition bound).  On scenario 1,
`parse` returns message `"Undefined control sequence."`, line 12, kind
`error`. -/
theorem claim2_amended_rule1 :
    (∀ (c : Char) (rest : List Char) (len : Nat) (r : ErrorRecord),
        matchPat1 (c :: rest) = some (len, r) →
        c = '!' ∧
        ∃ a b g, pat1Decomp rest a b g ∧
          r.message = String.mk (trimList ((rest.drop a).take b)) ∧
          r.line = some (digitsToNat ((((((rest.drop a).drop b).drop g).drop 2)).take
            (run Char.isDigit ((((rest.drop a).drop b).drop g).drop 2)))) ∧
          r.file = none ∧ r.type = "error") ∧
    (∀ (rest : List Char) (a b g : Nat), pat1Decomp rest a b g →
        (matchPat1 ('!' :: rest)).isSome = true) ∧
    parse (some logC2) = some recC2 := by
  refine ⟨?_, ?_, by decide⟩
  · intro c rest len r h
    obtain ⟨hc, a, b, g, h1, h2, h3, h4, h5, h6, h7, h8, hrec⟩ := matchPat1_sound h
    refine ⟨hc, a, b, g,
      ⟨h1, take_all_of_le_run rest a h2, h3, take_all_of_le_run (rest.drop a) b h4,
        h5, h6, run_pos_iff.mp h7⟩, ?_, ?_, ?_, ?_⟩
    · rw [hrec]
    · rw [hrec]
    · rw [hrec]
    · rw [hrec]
  · intro rest a b g hd
    obtain ⟨h1, h2, h3, h4, h5, h6, ch, chs, h7, h8⟩ := hd
    have hlen2 : 2 ≤ (((rest.drop a).drop b).drop g).length := by
      have hl := congrArg List.length h6
      rw [List.length_take] at hl
      simp only [List.length_cons, List.length_nil] at hl
      omega
    have hlen3 : a + b + g + 2 ≤ rest.length := by
      simp only [List.length_drop] at hlen2
      omega
    have haMem : a ∈ descRange (run isWS rest) :=
      mem_descRange.mpr ⟨h1, le_run_of_take_all rest a (by omega) h2⟩
    have hbMem : b ∈ descRange (run notNl (rest.drop a)) := by
      refine mem_descRange.mpr ⟨h3, le_run_of_take_all (rest.drop a) b ?_ h4⟩
      rw [List.length_drop]
      omega
    have hgMem : g ∈ List.range (min 500 ((rest.drop a).drop b).length + 1) := by
      rw [List.mem_range]
      simp only [List.length_drop]
      omega
    have hdpos : 1 ≤ run Char.isDigit ((((rest.drop a).drop b).drop g).drop 2) :=
      run_pos_iff.mpr ⟨ch, chs, h7, h8⟩
    simp only [matchPat1, if_pos rfl]
    refine findSome?_isSome haMem ?_
    refine findSome?_isSome hbMem ?_
    refine findSome?_isSome hgMem ?_
    rw [if_pos h6, if_neg (by omega)]
    rfl

/-- Witness for claim C2's amended theorem: a concrete decomposition on
which rule 1 fires. -/
theorem claim2_witness : (matchPat1 (Char.ofNat 33 :: " A\nl.3 x".data)).isSome = true :=
  claim2_amended_rule1.2.1 " A\nl.3 x".data 1 1 1
    ⟨by decide, by decide, by decide, by decide, by decide, by decide,
      Char.ofNat 51, " x".data, by decide, by decide⟩

/-- Claim C5 counterexample: on `"./a.tex:7: hi \nx"` (trailing space in
the message), `parse` returns the trimmed message `"hi"`, not the
verbatim message text `"hi "`. -/
theorem claim5_counterexample :
    (parse (some cexC5)).map ErrorRecord.message = some "hi" ∧
    ("hi" : String) ≠ "hi " :=
  ⟨by decide, by decide⟩

/-- Claim C5 as amended: on a log where rule 1 matches nowhere and rule 2
has a first match, `parse` returns rule 2's record, whose matched span
decomposes as `<path>:<digits>: <message>`; the file is the trimmed
path, the line the parsed digits, and the message the matched message
text with surrounding whitespace trimmed (not fully verbatim).  On
scenario 2, `parse` returns message `"Undefined control sequence."`,
line 42, file `"./main.tex"`. -/
theorem claim5_fileline :
    (∀ (t : String) (p len : Nat) (r : ErrorRecord),
        execFrom matchPat1 (normCRLF t.data) 0 = none →
        execFrom matchPat2 (normCRLF t.data) 0 = some (p, len, r) →
        r.message ≠ "" →
        parse (some t) = some r ∧
        ∃ rest2, (normCRLF t.data).drop p = Char.ofNat 46 :: rest2 ∧
          (∃ m d w msgLen,
            m = run notColon rest2 ∧
            d = run Char.isDigit (rest2.drop (m + 1)) ∧
            w = run isWS ((rest2.drop (m + 1)).drop (d + 1)) ∧
            msgLen = run dotClass ((((rest2.drop (m + 1)).drop (d + 1))).drop w) ∧
            1 ≤ m ∧ (rest2.drop m).take 1 = [Char.ofNat 58] ∧
            1 ≤ d ∧ ((rest2.drop (m + 1)).drop d).take 1 = [Char.ofNat 58] ∧
            1 ≤ w ∧
            len = 1 + m + 1 + d + 1 + w + msgLen ∧
            r = { message :=
                    String.mk (trimList (((((rest2.drop (m + 1)).drop (d + 1))).drop w).take msgLen)),
                  line := some (digitsToNat ((rest2.drop (m + 1)).take d)),
                  file := some (String.mk (trimList (Char.ofNat 46 :: rest2.take m))),
                  fullText := String.mk ((Char.ofNat 46 :: rest2).take len),
                  type := "error" })) ∧
    parse (some logC5) = some recC5 := by
  refine ⟨?_, by decide⟩
  intro t p len r h1 h2 hne
  have hr1 : ruleResult matchPat1 (normCRLF t.data) = none := by
    unfold ruleResult
    rw [h1]
  have hr2 : ruleResult matchPat2 (normCRLF t.data) = some r := by
    unfold ruleResult
    rw [h2]
    show (if r.message ≠ "" then some r else none) = some r
    rw [if_pos hne]
  by_cases hdata : t.data = []
  · rw [hdata] at h2
    have hfalse : (none : Option (Nat × Nat × ErrorRecord)) = some (p, len, r) := h2
    cases hfalse
  · constructor
    · rw [show parse (some t) =
        (if t.data = [] then none else parseGo patterns (normCRLF t.data)) from rfl,
        if_neg hdata, parseGo_eq_findSome?]
      refine findSome?_eq_of_getD (f := fun m => ruleResult m (normCRLF t.data))
        (d := fun _ => none) (ruleResult_default _) patterns 1 r ?_ ?_
      · simpa [patterns] using hr2
      · intro j hj
        cases j with
        | zero => simpa [patterns] using hr1
        | succ n => omega
    · have hmatch := (execFrom_sound h2).2.2
      cases hsuffix : (normCRLF t.data).drop p with
      | nil =>
        rw [hsuffix] at hmatch
        have hfalse : (none : Option (Nat × ErrorRecord)) = some (len, r) := hmatch
        cases hfalse
      | cons c rest2 =>
        rw [hsuffix] at hmatch
        obtain ⟨hc, m, d, w, msgLen, e1, e2, e3, e4, f1, f2, f3, f4, f5, f6, hrec⟩ :=
          matchPat2_sound hmatch
        subst hc
        exact ⟨rest2, rfl, m, d, w, msgLen, e1, e2, e3, e4, f1, f2, f3, f4, f5, f6, hrec⟩

/-- Witness for claim C5's theorem: on the scenario-2 log, rule 1 misses,
rule 2 hits at position 0 with length 42, and `parse` returns its
record. -/
theorem claim5_witness : parse (some logC5) = some recC5 :=
  (claim5_fileline.1 logC5 0 42 recC5 (by decide) (by decide) (by decide)).1

/-- The sort comparator is total. -/
theorem cmp_total (a b : ErrorRecord) : cmp a b ≤ 0 ∨ cmp b a ≤ 0 := by
  unfold cmp
  rcases a.line with _ | x <;> rcases b.line with _ | y <;> simp <;> omega

/-- The sort comparator is transitive on its non-positive cone. -/
theorem cmp_trans {a b c : ErrorRecord} (h1 : cmp a b ≤ 0) (h2 : cmp b c ≤ 0) :
    cmp a c ≤ 0 := by
  unfold cmp at h1 h2 ⊢
  rcases ha : a.line with _ | x <;> rcases hb : b.line with _ | y <;>
    rcases hc : c.line with _ | z <;> simp_all <;> omega

/-- Stable insertion is a permutation of consing. -/
theorem insertSorted_perm (r : ErrorRecord) :
    ∀ (l : List ErrorRecord), List.Perm (insertSorted r l) (r :: l) := by
  intro l
  induction l with
  | nil => exact List.Perm.refl _
  | cons y ys ih =>
    simp only [insertSorted]
    split
    · exact List.Perm.refl _
    · exact (List.Perm.cons y ih).trans (List.Perm.swap r y ys)

/-- Stable insertion preserves sortedness. -/
theorem insertSorted_pairwise {r : ErrorRecord} :
    ∀ {l : List ErrorRecord}, l.Pairwise (fun a b => cmp a b ≤ 0) →
      (insertSorted r l).Pairwise (fun a b => cmp a b ≤ 0) := by
  intro l
  induction l with
  | nil => intro _; simp [insertSorted]
  | cons y ys ih =>
    intro hp
    rw [List.pairwise_cons] at hp
    obtain ⟨hy, hys⟩ := hp
    simp only [insertSorted]
    split
    case isTrue hle =>
      rw [List.pairwise_cons]
      refine ⟨?_, List.pairwise_cons.mpr ⟨hy, hys⟩⟩
      intro x hx
      rcases List.mem_cons.mp hx with rfl | h2
      · exact hle
      · exact cmp_trans hle (hy x h2)
    case isFalse hgt =>
      rw [List.pairwise_cons]
      constructor
      · intro x hx
        rcases List.mem_cons.mp ((insertSorted_perm r ys).mem_iff.mp hx) with heq | h2
        · rw [heq]
          rcases cmp_total r y with h | h
          · exact absurd h hgt
          · exact h
        · exact hy x h2
      · exact ih hys

/-- The sort of `parseAll` is sorted w.r.t. its comparator. -/
theorem sortRecords_pairwise : ∀ (l : List ErrorRecord),
    (sortRecords l).Pairwise (fun a b => cmp a b ≤ 0) := by
  intro l
  induction l with
  | nil => simp [sortRecords]
  | cons x xs ih => exact insertSorted_pairwise ih

/-- The sort of `parseAll` permutes its input. -/
theorem sortRecords_perm : ∀ (l : List ErrorRecord), List.Perm (sortRecords l) l := by
  intro l
  induction l with
  | nil => exact List.Perm.refl _
  | cons x xs ih => exact ((insertSorted_perm x (sortRecords xs)).trans (List.Perm.cons x ih))

/-- Stability on the null-line records: inserting never reorders them. -/
theorem insertSorted_filter_null (r : ErrorRecord) :
    ∀ (l : List ErrorRecord),
      (insertSorted r l).filter (fun x => x.line.isNone) =
      (r :: l).filter (fun x => x.line.isNone) := by
  intro l
  induction l with
  | nil => rfl
  | cons y ys ih =>
    simp only [insertSorted]
    split
    case isTrue hle => rfl
    case isFalse hgt =>
      rw [List.filter_cons, List.filter_cons, ih, List.filter_cons, List.filter_cons]
      by_cases hr : r.line.isNone
      · by_cases hy : y.line.isNone
        · have h0 : cmp r y = 0 := by
            unfold cmp
            rw [Option.isNone_iff_eq_none.mp hr, Option.isNone_iff_eq_none.mp hy]
          exact absurd (by rw [h0]) hgt
        · simp [hr, hy]
      · by_cases hy : y.line.isNone <;> simp [hr, hy]

/-- The null-line records come out of the sort in their input order. -/
theorem sortRecords_filter_null : ∀ (l : List ErrorRecord),
    (sortRecords l).filter (fun x => x.line.isNone) =
    l.filter (fun x => x.line.isNone) := by
  intro l
  induction l with
  | nil => rfl
  | cons x xs ih =>
    have h1 : sortRecords (x :: xs) = insertSorted x (sortRecords xs) := rfl
    rw [h1, insertSorted_filter_null, List.filter_cons, List.filter_cons, ih]

/-- `parseAll` is the stable sort of the encounter-order collection. -/
theorem parseAll_eq_sort (o : Option String) :
    parseAll o = sortRecords (encounterList o) := by
  cases o with
  | none => rfl
  | some s =>
    by_cases h : s.data = [] <;> simp [parseAll, encounterList, h, sortRecords]

/-- Claim C3: every `parseAll` result is sorted — records with a non-null
line precede every null-line record, non-null lines are non-decreasing,
and the null-line records keep their encounter order among themselves. -/
theorem claim3_parseAll_sorted :
    ∀ (o : Option String),
      (parseAll o).Pairwise (fun a b =>
        (a.line = none → b.line = none) ∧
        (∀ x y, a.line = some x → b.line = some y → x ≤ y)) ∧
      (parseAll o).filter (fun x => x.line.isNone) =
        (encounterList o).filter (fun x => x.line.isNone) := by
  intro o
  constructor
  · rw [parseAll_eq_sort]
    refine (sortRecords_pairwise (encounterList o)).imp ?_
    intro a b hle
    constructor
    · intro ha
      cases hb : b.line with
      | none => rfl
      | some y =>
        rw [show cmp a b = 1 from by unfold cmp; rw [ha, hb]] at hle
        omega
    · intro x y hx hy
      rw [show cmp a b = (x : Int) - (y : Int) from by unfold cmp; rw [hx, hy]] at hle
      omega
  · rw [parseAll_eq_sort, sortRecords_filter_null]

/-- Witness for claim C3's theorem at a concrete log. -/
theorem claim3_witness :
    (parseAll (some logC10a)).Pairwise (fun a b =>
        (a.line = none → b.line = none) ∧
        (∀ x y, a.line = some x → b.line = some y → x ≤ y)) ∧
      (parseAll (some logC10a)).filter (fun x => x.line.isNone) =
        (encounterList (some logC10a)).filter (fun x => x.line.isNone) :=
  claim3_parseAll_sorted (some logC10a)

/-- When the seen keys are exactly the keys of the collected records,
one loop-body step of `parseAll` is one first-wins dedup step. -/
theorem pushRecord_eq (errs : List ErrorRecord) (r : ErrorRecord) :
    pushRecord (errs, errs.map dedupKey) r =
      (if r.message ≠ "" then dedupStep errs r else errs,
       (if r.message ≠ "" then dedupStep errs r else errs).map dedupKey) := by
  unfold pushRecord dedupStep
  by_cases hm : r.message = ""
  · simp [hm]
  · simp only [hm, ne_eq, not_false_eq_true, if_true]
    by_cases hk : dedupKey r ∈ errs.map dedupKey
    · simp [hk]
    · simp [hk]

/-- One rule's `while` loop refines first-wins dedup over that rule's
raw discovery stream. -/
theorem collectPattern_eq (m : Matcher) (text : List Char) :
    ∀ (fuel start : Nat) (errs : List ErrorRecord),
      collectPattern m text fuel start (errs, errs.map dedupKey) =
        ((rawPattern m text fuel start).foldl dedupStep errs,
         ((rawPattern m text fuel start).foldl dedupStep errs).map dedupKey) := by
  intro fuel
  induction fuel with
  | zero => intro start errs; rfl
  | succ fuel ih =>
    intro start errs
    have h1 : collectPattern m text (fuel + 1) start (errs, errs.map dedupKey) =
        (match execFrom m text start with
         | some (p, len, r) =>
             collectPattern m text fuel (p + len) (pushRecord (errs, errs.map dedupKey) r)
         | none => (errs, errs.map dedupKey)) := rfl
    have h2 : rawPattern m text (fuel + 1) start =
        (match execFrom m text start with
         | some (p, len, r) =>
             (if r.message ≠ "" then [r] else []) ++ rawPattern m text fuel (p + len)
         | none => []) := rfl
    rw [h1, h2]
    cases hx : execFrom m text start with
    | none => rfl
    | some v =>
      obtain ⟨p, len, r⟩ := v
      show collectPattern m text fuel (p + len) (pushRecord (errs, errs.map dedupKey) r) =
        (List.foldl dedupStep errs
          ((if r.message ≠ "" then [r] else []) ++ rawPattern m text fuel (p + len)),
         List.map dedupKey (List.foldl dedupStep errs
          ((if r.message ≠ "" then [r] else []) ++ rawPattern m text fuel (p + len))))
      rw [pushRecord_eq, ih, List.foldl_append]
      by_cases hm : r.message = ""
      · simp [hm]
      · simp [hm]

/-- The whole rule loop of `parseAll` refines first-wins dedup over the
rule-major concatenation of the raw streams. -/
theorem collectFold_eq (text : List Char) :
    ∀ (ms : List Matcher) (errs : List ErrorRecord),
      ms.foldl (fun acc m => collectPattern m text (text.length + 1) 0 acc)
        (errs, errs.map dedupKey) =
      (((ms.map (fun m => rawPattern m text (text.length + 1) 0)).flatten).foldl
          dedupStep errs,
       (((ms.map (fun m => rawPattern m text (text.length + 1) 0)).flatten).foldl
          dedupStep errs).map dedupKey) := by
  intro ms
  induction ms with
  | nil => intro errs; rfl
  | cons m ms ih =>
    intro errs
    rw [List.foldl_cons, collectPattern_eq, ih, List.map_cons, List.flatten_cons,
      List.foldl_append]

/-- `parseAll`'s pre-sort collection is exactly first-wins dedup of the
rule-major raw discovery stream. -/
theorem encounterList_eq_dedupFirst (o : Option String) :
    encounterList o = dedupFirst (rawList o) := by
  cases o with
  | none => rfl
  | some s =>
    by_cases h : s.data = []
    · simp [encounterList, rawList, h, dedupFirst]
    · simp only [encounterList, rawList, h, if_neg, if_false]
      have hc : collectAll (stripInvisible (normCRLF s.data)) =
          patterns.foldl (fun acc m =>
            collectPattern m (stripInvisible (normCRLF s.data))
              ((stripInvisible (normCRLF s.data)).length + 1) 0 acc)
            ([], ([] : List ErrorRecord).map dedupKey) := rfl
      rw [hc, collectFold_eq]
      rfl

/-- First-wins dedup yields pairwise-distinct composite keys. -/
theorem dedupFold_pairwise :
    ∀ (l : List ErrorRecord) (acc : List ErrorRecord),
      acc.Pairwise (fun a b => dedupKey a ≠ dedupKey b) →
      (l.foldl dedupStep acc).Pairwise (fun a b => dedupKey a ≠ dedupKey b) := by
  intro l
  induction l with
  | nil => intro acc h; exact h
  | cons r rs ih =>
    intro acc h
    rw [List.foldl_cons]
    refine ih _ ?_
    unfold dedupStep
    by_cases hk : dedupKey r ∈ acc.map dedupKey
    · rw [if_pos hk]; exact h
    · rw [if_neg hk]
      rw [List.pairwise_append]
      refine ⟨h, List.pairwise_singleton _ _, ?_⟩
      intro a ha b hb
      rw [List.mem_singleton] at hb
      subst hb
      intro heq
      exact hk (heq ▸ List.mem_map_of_mem dedupKey ha)

/-- Claim C4 counterexample: two `l.0` records share the claim's dedup
key `0:<50-char prefix>` yet both survive, because the code keys by JS
truthiness and files line 0 under the `null:<full message>` form. -/
theorem claim4_counterexample :
    parseAll (some cexC4) = [recC4a, recC4b] ∧
    claimDedupKey recC4a = claimDedupKey recC4b ∧ recC4a ≠ recC4b :=
  ⟨by decide, by decide, by decide⟩

/-- Claim C4 as amended: with the code's composite key — the
`<line>:<first 50 chars>` form only when the line is known *and
non-zero*, the `null:<full message>` form otherwise — `parseAll` never
contains two records with identical keys, and its pre-sort collection is
first-occurrence-wins deduplication of the raw discovery stream. -/
theorem claim4_amended_dedup :
    ∀ (o : Option String),
      (parseAll o).Pairwise (fun a b => dedupKey a ≠ dedupKey b) ∧
      encounterList o = dedupFirst (rawList o) := by
  intro o
  refine ⟨?_, encounterList_eq_dedupFirst o⟩
  have hpw : (encounterList o).Pairwise (fun a b => dedupKey a ≠ dedupKey b) := by
    rw [encounterList_eq_dedupFirst]
    exact dedupFold_pairwise _ [] List.Pairwise.nil
  rw [parseAll_eq_sort]
  exact (List.Perm.pairwise_iff (fun hxy e => hxy e.symm)
    (sortRecords_perm (encounterList o))).mpr hpw

/-- Claim C10: discovery is rule-major — the pre-sort collection is
first-wins dedup over the concatenation of the per-rule streams in
priority order — so among sort-ties the higher-priority rule's record
comes first even when its span occurs later in the text (`logC10a`), and
on a shared dedup key the higher-priority rule's record is the one kept
(`logC10b`, where the surviving record has `file = none`). -/
theorem claim10_rule_major :
    (∀ (o : Option String), encounterList o = dedupFirst (rawList o)) ∧
    parseAll (some logC10a) = [recC10a1, recC10a2] ∧
    parseAll (some logC10b) = [recC10b] :=
  ⟨fun o => encounterList_eq_dedupFirst o, by decide, by decide⟩

/-- The result of `parse`'s rule loop never depends on the incoming
`lastIndex` registers: each rule's register is overwritten with 0 before
its single `exec`. -/
theorem parseGoSt_fst (text : List Char) :
    ∀ (ms : List Matcher) (sts : List Nat),
      (parseGoSt ms sts text).1 = parseGo ms text := by
  intro ms
  induction ms with
  | nil => intro sts; rfl
  | cons m ms ih =>
    intro sts
    cases hx : execFrom m text 0 with
    | none =>
      have h1 : parseGoSt (m :: ms) sts text =
          ((parseGoSt ms sts.tail text).1, 0 :: (parseGoSt ms sts.tail text).2) := by
        simp only [parseGoSt, execStateful, hx]
      have h2 : parseGo (m :: ms) text = parseGo ms text := by
        simp only [parseGo, hx]
      rw [h1, h2]
      exact ih sts.tail
    | some v =>
      obtain ⟨p, len, r⟩ := v
      have h1 : parseGoSt (m :: ms) sts text =
          (if r.message ≠ "" then (some r, (p + len) :: sts.tail)
           else ((parseGoSt ms sts.tail text).1,
             (p + len) :: (parseGoSt ms sts.tail text).2)) := by
        simp only [parseGoSt, execStateful, hx]
      have h2 : parseGo (m :: ms) text =
          (if r.message ≠ "" then some r else parseGo ms text) := by
        simp only [parseGo, hx]
      rw [h1, h2]
      by_cases hm : r.message ≠ ""
      · rw [if_pos hm, if_pos hm]
      · rw [if_neg hm, if_neg hm]
        exact ih sts.tail

/-- `parse` with explicit registers returns what the pure `parse`
returns, whatever stale registers it starts from. -/
theorem parseSt_fst (o : Option String) (sts : List Nat) :
    (parseSt o sts).1 = parse o := by
  cases o with
  | none => rfl
  | some s =>
    by_cases h : s.data = []
    · simp [parseSt, parse, h]
    · simp only [parseSt, parse, if_neg h]
      exact parseGoSt_fst _ patterns sts

/-- One rule's `while` loop with an explicit register computes the pure
collection. -/
theorem collectLoopSt_fst (m : Matcher) (text : List Char) :
    ∀ (fuel lastIndex : Nat) (acc : List ErrorRecord × List (Option Nat × String)),
      (collectLoopSt m text fuel lastIndex acc).1 =
        collectPattern m text fuel lastIndex acc := by
  intro fuel
  induction fuel with
  | zero => intro li acc; rfl
  | succ fuel ih =>
    intro li acc
    cases hx : execFrom m text li with
    | none =>
      have h1 : collectLoopSt m text (fuel + 1) li acc = (acc, 0) := by
        simp only [collectLoopSt, execStateful, hx]
      have h2 : collectPattern m text (fuel + 1) li acc = acc := by
        simp only [collectPattern, hx]
      rw [h1, h2]
    | some v =>
      obtain ⟨p, len, r⟩ := v
      have h1 : collectLoopSt m text (fuel + 1) li acc =
          collectLoopSt m text fuel (p + len) (pushRecord acc r) := by
        simp only [collectLoopSt, execStateful, hx]
      have h2 : collectPattern m text (fuel + 1) li acc =
          collectPattern m text fuel (p + len) (pushRecord acc r) := by
        simp only [collectPattern, hx]
      rw [h1, h2]
      exact ih (p + len) (pushRecord acc r)

/-- The rule loop of `parseAll` with explicit registers computes the
pure fold, whatever stale registers it starts from. -/
theorem parseAllGoSt_fst (text : List Char) :
    ∀ (ms : List Matcher) (sts : List Nat)
      (acc : List ErrorRecord × List (Option Nat × String)),
      (parseAllGoSt ms sts text acc).1 =
        ms.foldl (fun a m => collectPattern m text (text.length + 1) 0 a) acc := by
  intro ms
  induction ms with
  | nil => intro sts acc; rfl
  | cons m ms ih =>
    intro sts acc
    have h1 : (parseAllGoSt (m :: ms) sts text acc).1 =
        (parseAllGoSt ms sts.tail text
          (collectLoopSt m text (text.length + 1) 0 acc).1).1 := rfl
    rw [h1, ih, collectLoopSt_fst, List.foldl_cons]

/-- `parseAll` with explicit registers returns what the pure `parseAll`
returns, whatever stale registers it starts from. -/
theorem parseAllSt_fst (o : Option String) (sts : List Nat) :
    (parseAllSt o sts).1 = parseAll o := by
  cases o with
  | none => rfl
  | some s =>
    by_cases h : s.data = []
    · simp [parseAllSt, parseAll, h]
    · simp only [parseAllSt, parseAll, if_neg h]
      have hgo := parseAllGoSt_fst (stripInvisible (normCRLF s.data)) patterns sts ([], [])
      have h2 : (parseAllGoSt patterns sts (stripInvisible (normCRLF s.data)) ([], [])).1 =
          collectAll (stripInvisible (normCRLF s.data)) := hgo
      rw [h2]

/-- Claim C8: `parse` and `parseAll` are idempotent across calls — the
matchers' stateful scan cursors (`lastIndex` registers) are reset at the
start of every call, so the result never depends on the register state a
previous call left behind, and two successive calls on the same text
agree. -/
theorem claim8_idempotent :
    ∀ (o : Option String) (sts : List Nat),
      (parseSt o sts).1 = parse o ∧
      (parseAllSt o sts).1 = parseAll o ∧
      (parseSt o (parseSt o sts).2).1 = (parseSt o sts).1 ∧
      (parseAllSt o (parseAllSt o sts).2).1 = (parseAllSt o sts).1 := by
  intro o sts
  refine ⟨parseSt_fst o sts, parseAllSt_fst o sts, ?_, ?_⟩
  · rw [parseSt_fst, parseSt_fst]
  · rw [parseAllSt_fst, parseAllSt_fst]

/-- Witness for claim C4's amended theorem at a concrete log. -/
theorem claim4_witness :
    (parseAll (some cexC4)).Pairwise (fun a b => dedupKey a ≠ dedupKey b) ∧
    encounterList (some cexC4) = dedupFirst (rawList (some cexC4)) :=
  claim4_amended_dedup (some cexC4)

/-- Witness for claim C6's theorem at concrete registers. -/
theorem claim6_witness :
    parseSt none [7] = (none, [7]) ∧ parseSt (some "") [7] = (none, [7]) ∧
    parseAllSt none [7] = ([], [7]) ∧ parseAllSt (some "") [7] = ([], [7]) :=
  claim6_empty_input.2.2.2.2 [7]

/-- Witness for claim C8's theorem at a concrete log and concrete stale
registers. -/
theorem claim8_witness :
    (parseSt (some logC1) [3, 1, 4, 1, 5]).1 = parse (some logC1) ∧
    (parseAllSt (some logC1) [3, 1, 4, 1, 5]).1 = parseAll (some logC1) ∧
    (parseSt (some logC1) (parseSt (some logC1) [3, 1, 4, 1, 5]).2).1 =
      (parseSt (some logC1) [3, 1, 4, 1, 5]).1 ∧
    (parseAllSt (some logC1) (parseAllSt (some logC1) [3, 1, 4, 1, 5]).2).1 =
      (parseAllSt (some logC1) [3, 1, 4, 1, 5]).1 :=
  claim8_idempotent (some logC1) [3, 1, 4, 1, 5]

/-- Witness for claim C10's theorem at a concrete log. -/
theorem claim10_witness :
    encounterList (some logC10b) = dedupFirst (rawList (some logC10b)) :=
  claim10_rule_major.1 (some logC10b)

end EasyLeaf
